import Mathlib

/-
Verification of the pattern checker `verify_blocking.py`.

The script reads one hardcoded file, runs a single DOTALL regex search
  Intent\.ACTION_VIEW, Intent\.ACTION_SEND -> \x7b.*?runBlocking \x7b.*?copyToCacheSynchronous
over its content, and prints one of two fixed lines depending on whether a
match was found.

Embedding: file contents are strings (lists of characters).  The regex is a
sequence of three literal markers separated by `.*?` gaps that may span
newlines (DOTALL), so a match exists in a string exactly when the three
markers occur in order, pairwise disjoint.  `re.search`'s lazy strategy is
embedded as `reSearch`: find the first occurrence of the first marker, then
the first occurrence of the second marker in the remainder, then search the
rest for the third marker.  `reSearch_iff` proves this scanner equivalent to
the existential in-order-occurrence property.  The file read and the print
are modelled by `runScript` over an explicit file-system map; a failed read
is the `none` output (the uncaught exception path: nothing is printed).
-/

namespace VerifyBlocking

/-- The hardcoded input path of the script (`file_path` in the source). -/
def file_path : String := "app/src/main/java/com/yourname/pdftoolkit/ui/MainActivity.kt"

/-- First literal of the regex: the dual intent-action branch marker. -/
def branchMarker : List Char := "Intent.ACTION_VIEW, Intent.ACTION_SEND -> \x7b".data

/-- Second literal of the regex: the blocking-execution construct marker. -/
def blockingMarker : List Char := "runBlocking \x7b".data

/-- Third literal of the regex: the synchronous cache-copy marker. -/
def copyMarker : List Char := "copyToCacheSynchronous".data

/-- `leadsWith p s` is true when `p` is an initial segment of `s`. -/
def leadsWith : List Char → List Char → Bool
  | [], _ => true
  | _ :: _, [] => false
  | a :: as, b :: bs => a == b && leadsWith as bs

/-- Scan `s` left to right for the first occurrence of the literal `pat`;
return the remainder of `s` after that occurrence, or `none`. -/
def findDrop (pat : List Char) : List Char → Option (List Char)
  | [] => if leadsWith pat [] then some [] else none
  | c :: rest =>
      if leadsWith pat (c :: rest) then some ((c :: rest).drop pat.length)
      else findDrop pat rest

/-- The DOTALL search of line 10 of the script: does the regex
`branchMarker.*?blockingMarker.*?copyMarker` match somewhere in `content`?
The lazy scan: first occurrence of the first marker, then of the second in
the remainder, then of the third in what is left. -/
def reSearch (content : List Char) : Bool :=
  (((findDrop branchMarker content).bind
    (findDrop blockingMarker)).bind (findDrop copyMarker)).isSome

/-- The line printed when the regex matches. -/
def foundLine : String := "FOUND: Blocking call detected in ACTION_VIEW/SEND handler"

/-- The line printed when the regex does not match. -/
def notFoundLine : String := "NOT FOUND: Blocking call not detected in ACTION_VIEW/SEND handler"

/-- The single line the script prints, as a function of the file content
(lines 10-15 of the source). -/
def scriptOutput (content : String) : String :=
  if reSearch content.data then foundLine else notFoundLine

/-- A file system: a map from paths to contents (`none` = unreadable). -/
abbrev FileSystem : Type := String → Option String

/-- The whole script run over a file system: read `file_path`, print the
result line.  Output `none` models the uncaught read error (nothing is
printed); the second component is the file system after the run. -/
def runScript (fs : FileSystem) : Option String × FileSystem :=
  match fs file_path with
  | none => (none, fs)
  | some content => (some (scriptOutput content), fs)

/-- Spec-side property: the three markers occur in `s` in order, pairwise
disjoint, with arbitrary gaps (which may contain newlines). -/
def ContainsInOrder (s : List Char) : Prop :=
  ∃ a b c d : List Char,
    s = a ++ branchMarker ++ b ++ blockingMarker ++ c ++ copyMarker ++ d

theorem leadsWith_iff (p : List Char) : ∀ s : List Char,
    leadsWith p s = true ↔ ∃ t, s = p ++ t := by
  induction p with
  | nil =>
      intro s
      simp [leadsWith]
  | cons a as ih =>
      intro s
      cases s with
      | nil =>
          simp [leadsWith]
      | cons b bs =>
          simp only [leadsWith, Bool.and_eq_true, beq_iff_eq, ih bs,
            List.cons_append, List.cons.injEq]
          constructor
          · rintro ⟨hab, t, ht⟩
            exact ⟨t, hab.symm, ht⟩
          · rintro ⟨t, hab, ht⟩
            exact ⟨hab.symm, t, ht⟩

theorem drop_len_append (p t : List Char) : (p ++ t).drop p.length = t := by
  induction p with
  | nil => simp
  | cons a as ih => simp

theorem drop_append_of_le (n : Nat) :
    ∀ A b : List Char, n ≤ A.length → (A ++ b).drop n = A.drop n ++ b := by
  induction n with
  | zero => intro A b _; simp
  | succ m ih =>
      intro A b h
      cases A with
      | nil => simp at h
      | cons a as =>
          simpa using ih as b (Nat.le_of_succ_le_succ h)

theorem findDrop_some (pat : List Char) : ∀ s r : List Char,
    findDrop pat s = some r → ∃ a, s = a ++ pat ++ r := by
  intro s
  induction s with
  | nil =>
      intro r h
      by_cases hl : leadsWith pat [] = true
      · obtain ⟨t, ht⟩ := (leadsWith_iff pat []).mp hl
        simp only [findDrop, hl, if_true, Option.some.injEq] at h
        refine ⟨[], ?_⟩
        rcases List.append_eq_nil.mp ht.symm with ⟨hp, htnil⟩
        simp [hp, ← h]
      · simp [findDrop, hl] at h
  | cons c rest ih =>
      intro r h
      by_cases hl : leadsWith pat (c :: rest) = true
      · obtain ⟨t, ht⟩ := (leadsWith_iff pat (c :: rest)).mp hl
        simp only [findDrop, hl, if_true, Option.some.injEq] at h
        refine ⟨[], ?_⟩
        rw [ht, drop_len_append] at h
        simp [ht, h]
      · simp only [findDrop, hl, if_false] at h
        obtain ⟨a, ha⟩ := ih r h
        exact ⟨c :: a, by simp [ha]⟩

theorem findDrop_first (pat : List Char) : ∀ a b : List Char,
    ∃ m, findDrop pat (a ++ pat ++ b) = some (m ++ b) := by
  intro a
  induction a with
  | nil =>
      intro b
      refine ⟨[], ?_⟩
      have hl : leadsWith pat (pat ++ b) = true :=
        (leadsWith_iff pat (pat ++ b)).mpr ⟨b, rfl⟩
      cases hpb : pat ++ b with
      | nil =>
          rcases List.append_eq_nil.mp hpb with ⟨hp, hb⟩
          simp [findDrop, hp, hb, leadsWith]
      | cons c rest =>
          rw [List.nil_append, hpb]
          rw [hpb] at hl
          simp only [findDrop, hl, if_true, Option.some.injEq]
          rw [← hpb, drop_len_append]
          simp
  | cons c a' ih =>
      intro b
      by_cases hl : leadsWith pat (c :: (a' ++ pat ++ b)) = true
      · refine ⟨(c :: (a' ++ pat)).drop pat.length, ?_⟩
        show (if leadsWith pat (c :: (a' ++ pat ++ b)) = true
            then some ((c :: (a' ++ pat ++ b)).drop pat.length)
            else findDrop pat (a' ++ pat ++ b))
          = some ((c :: (a' ++ pat)).drop pat.length ++ b)
        rw [if_pos hl]
        have h2 : c :: (a' ++ pat ++ b) = (c :: (a' ++ pat)) ++ b := by simp
        have hlen : pat.length ≤ (c :: (a' ++ pat)).length := by
          simp only [List.length_cons, List.length_append]
          omega
        rw [h2, drop_append_of_le pat.length (c :: (a' ++ pat)) b hlen]
      · obtain ⟨m, hm⟩ := ih b
        refine ⟨m, ?_⟩
        show (if leadsWith pat (c :: (a' ++ pat ++ b)) = true
            then some ((c :: (a' ++ pat ++ b)).drop pat.length)
            else findDrop pat (a' ++ pat ++ b))
          = some (m ++ b)
        rw [if_neg hl]
        exact hm

theorem reSearch_char (s : List Char) : reSearch s = true ↔
    ∃ r1 r2 r3, findDrop branchMarker s = some r1 ∧
      findDrop blockingMarker r1 = some r2 ∧ findDrop copyMarker r2 = some r3 := by
  unfold reSearch
  constructor
  · intro h
    obtain ⟨r3, h3⟩ := Option.isSome_iff_exists.mp h
    obtain ⟨r2, h2, h3'⟩ := Option.bind_eq_some.mp h3
    obtain ⟨r1, h1, h2'⟩ := Option.bind_eq_some.mp h2
    exact ⟨r1, r2, r3, h1, h2', h3'⟩
  · rintro ⟨r1, r2, r3, h1, h2, h3⟩
    exact Option.isSome_iff_exists.mpr
      ⟨r3, Option.bind_eq_some.mpr ⟨r2, Option.bind_eq_some.mpr ⟨r1, h1, h2⟩, h3⟩⟩

theorem reSearch_iff (s : List Char) : reSearch s = true ↔ ContainsInOrder s := by
  rw [reSearch_char]
  constructor
  · rintro ⟨r1, r2, r3, h1, h2, h3⟩
    obtain ⟨a1, ha1⟩ := findDrop_some branchMarker s r1 h1
    obtain ⟨a2, ha2⟩ := findDrop_some blockingMarker r1 r2 h2
    obtain ⟨a3, ha3⟩ := findDrop_some copyMarker r2 r3 h3
    refine ⟨a1, a2, a3, r3, ?_⟩
    rw [ha1, ha2, ha3]
    simp [List.append_assoc]
  · rintro ⟨a, b, c, d, rfl⟩
    obtain ⟨m1, hm1⟩ :=
      findDrop_first branchMarker a (b ++ blockingMarker ++ c ++ copyMarker ++ d)
    obtain ⟨m2, hm2⟩ := findDrop_first blockingMarker (m1 ++ b) (c ++ copyMarker ++ d)
    obtain ⟨m3, hm3⟩ := findDrop_first copyMarker (m2 ++ c) d
    refine ⟨m1 ++ (b ++ blockingMarker ++ c ++ copyMarker ++ d),
      m2 ++ (c ++ copyMarker ++ d), m3 ++ d, ?_, ?_, ?_⟩
    · have e1 : a ++ branchMarker ++ b ++ blockingMarker ++ c ++ copyMarker ++ d
          = a ++ branchMarker ++ (b ++ blockingMarker ++ c ++ copyMarker ++ d) := by
        simp [List.append_assoc]
      rw [e1]
      exact hm1
    · have e2 : m1 ++ (b ++ blockingMarker ++ c ++ copyMarker ++ d)
          = m1 ++ b ++ blockingMarker ++ (c ++ copyMarker ++ d) := by
        simp [List.append_assoc]
      rw [e2]
      exact hm2
    · have e3 : m2 ++ (c ++ copyMarker ++ d) = m2 ++ c ++ copyMarker ++ d := by
        simp [List.append_assoc]
      rw [e3]
      exact hm3

/-- Content whose three markers occur in the required order but in three
unrelated top-level blocks: the intent branch closes before an unrelated
helper containing the blocking construct, and the cache-copy call sits in
yet another helper. -/
def crossBlockContent : String :=
  "when (intent.action) \x7b\n  Intent.ACTION_VIEW, Intent.ACTION_SEND -> \x7b\n    handleViewOrSend(intent)\n  \x7d\n\x7d\n\nfun unrelatedHelper() \x7b\n  runBlocking \x7b\n    delay(10)\n  \x7d\n\x7d\n\nfun otherHelper() \x7b\n  copyToCacheSynchronous(uri)\n\x7d\n"

/-- Content containing the branch marker, then `runBlocking` immediately
followed by a brace with no space, then the cache-copy marker; the exact
substring `runBlocking \x7b` never occurs. -/
def noSpaceVariant : String :=
  "Intent.ACTION_VIEW, Intent.ACTION_SEND -> \x7b runBlocking\x7b copyToCacheSynchronous(uri) \x7d \x7d"

/-- Content identical to a matching one except the blocking marker is spelled
in lower case (`runblocking`). -/
def lowerCaseVariant : String :=
  "Intent.ACTION_VIEW, Intent.ACTION_SEND -> \x7b runblocking \x7b copyToCacheSynchronous(uri) \x7d \x7d"

/-- Claim C1: the script prints the FOUND line exactly when the content
contains, in order, the literal branch marker, then anywhere later the
literal `runBlocking \x7b` marker, then anywhere later the literal
`copyToCacheSynchronous` marker, with arbitrary gaps (newlines included);
otherwise it prints the NOT FOUND line. -/
theorem claim_C1 (content : String) :
    (scriptOutput content = foundLine ↔ ContainsInOrder content.data) ∧
    (scriptOutput content = notFoundLine ↔ ¬ ContainsInOrder content.data) := by
  have hiff := reSearch_iff content.data
  have hne : foundLine ≠ notFoundLine := by decide
  by_cases h : reSearch content.data = true
  · have hout : scriptOutput content = foundLine := by simp [scriptOutput, h]
    have hc : ContainsInOrder content.data := hiff.mp h
    refine ⟨⟨fun _ => hc, fun _ => hout⟩, ?_, ?_⟩
    · intro hnf
      rw [hout] at hnf
      exact absurd hnf hne
    · intro hnc
      exact absurd hc hnc
  · have hb : reSearch content.data = false := by
      rcases Bool.eq_false_or_eq_true (reSearch content.data) with h0 | h0
      · exact absurd h0 h
      · exact h0
    have hout : scriptOutput content = notFoundLine := by simp [scriptOutput, hb]
    have hnc : ¬ ContainsInOrder content.data := fun hc => h (hiff.mpr hc)
    refine ⟨⟨?_, ?_⟩, ⟨fun _ => hnc, fun _ => hout⟩⟩
    · intro hf
      rw [hout] at hf
      exact absurd hf.symm hne
    · intro hc
      exact absurd hc hnc

/-- Claim C2: when the file at the fixed path is missing or unreadable, the
run produces no printed line at all — neither the FOUND line nor the NOT
FOUND line — and performs no recovery: the file system is left as is. -/
theorem claim_C2 (fs : FileSystem) (h : fs file_path = none) :
    runScript fs = (none, fs) := by
  simp [runScript, h]

/-- Witness for claim C2 at the everywhere-unreadable file system. -/
theorem claim_C2_witness :
    runScript (fun _ => none) = (none, fun _ => none) :=
  claim_C2 (fun _ => none) rfl

/-- Claim C3: on the sample content with `doSomething(); runBlocking ...`
inside the dual-action branch, the checker prints the FOUND line. -/
theorem claim_C3 :
    scriptOutput "Intent.ACTION_VIEW, Intent.ACTION_SEND -> \x7b doSomething(); runBlocking \x7b copyToCacheSynchronous(uri) \x7d \x7d" = foundLine := by
  decide

/-- Claim C4: on the sample content whose branch only calls
`copyToCacheAsync(uri)`, the checker prints the NOT FOUND line. -/
theorem claim_C4 :
    scriptOutput "Intent.ACTION_VIEW, Intent.ACTION_SEND -> \x7b copyToCacheAsync(uri) \x7d" = notFoundLine := by
  decide

/-- Claim C5: on the empty content, the checker prints the NOT FOUND line. -/
theorem claim_C5 : scriptOutput "" = notFoundLine := by
  decide

/-- Claim C6: a content exists whose three markers occur in the required
order yet belong to unrelated, non-nested blocks, and the checker still
prints the FOUND line — the check is purely textual and order-based. -/
theorem claim_C6 :
    ContainsInOrder crossBlockContent.data ∧
    scriptOutput crossBlockContent = foundLine := by
  have h : reSearch crossBlockContent.data = true := by decide
  exact ⟨(reSearch_iff crossBlockContent.data).mp h, by simp [scriptOutput, h]⟩

/-- Claim C7: once the content is in hand, the match step cannot fail: for
every content the script prints exactly one of the two literal lines. -/
theorem claim_C7 (content : String) :
    scriptOutput content = foundLine ∨ scriptOutput content = notFoundLine := by
  unfold scriptOutput
  by_cases h : reSearch content.data = true
  · left
    simp [h]
  · right
    simp [h]

/-- Claim C8: running the check twice over an unchanged file system prints
the identical line both times, and the first run mutates nothing. -/
theorem claim_C8 (fs : FileSystem) :
    (runScript (runScript fs).2).1 = (runScript fs).1 ∧ (runScript fs).2 = fs := by
  cases h : fs file_path with
  | none => simp [runScript, h]
  | some c => simp [runScript, h]

/-- Claim C9: the run leaves the file system unchanged, and its printed
output depends only on the content stored at the fixed hardcoded path —
no other file or state influences or is affected by the run. -/
theorem claim_C9 (fs fs2 : FileSystem) :
    (runScript fs).2 = fs ∧
    (fs file_path = fs2 file_path → (runScript fs).1 = (runScript fs2).1) := by
  constructor
  · cases h : fs file_path with
    | none => simp [runScript, h]
    | some c => simp [runScript, h]
  · intro he
    unfold runScript
    rw [he]
    cases h2 : fs2 file_path with
    | none => simp
    | some c => simp

/-- Witness for claim C9 at a pair of concrete equal file systems. -/
theorem claim_C9_witness :
    (runScript (fun _ => some "x")).2 = (fun _ => some "x") ∧
    (runScript (fun _ => some "x")).1 = (runScript (fun _ => some "x")).1 :=
  ⟨(claim_C9 (fun _ => some "x") (fun _ => some "x")).1,
   (claim_C9 (fun _ => some "x") (fun _ => some "x")).2 rfl⟩

/-- Claim C10: the markers are exact, case-sensitive literals including
internal whitespace: with `runBlocking` glued to its brace the blocking
marker never occurs and the checker prints NOT FOUND, and likewise for the
lower-case spelling `runblocking`. -/
theorem claim_C10 :
    (¬ ∃ u v, noSpaceVariant.data = u ++ blockingMarker ++ v) ∧
    scriptOutput noSpaceVariant = notFoundLine ∧
    (¬ ∃ u v, lowerCaseVariant.data = u ++ blockingMarker ++ v) ∧
    scriptOutput lowerCaseVariant = notFoundLine := by
  refine ⟨?_, by decide, ?_, by decide⟩
  · rintro ⟨u, v, huv⟩
    obtain ⟨m, hm⟩ := findDrop_first blockingMarker u v
    rw [← huv] at hm
    have hnone : findDrop blockingMarker noSpaceVariant.data = none := by decide
    rw [hnone] at hm
    exact Option.noConfusion hm
  · rintro ⟨u, v, huv⟩
    obtain ⟨m, hm⟩ := findDrop_first blockingMarker u v
    rw [← huv] at hm
    have hnone : findDrop blockingMarker lowerCaseVariant.data = none := by decide
    rw [hnone] at hm
    exact Option.noConfusion hm

end VerifyBlocking
